import Mathlib

/-!
# Verification of the KVStore repository (tobiasfamos/KVStore)

This file contains a shallow embedding, in Lean 4, of the core of the
KVStore repository: the ordered-array binary search (`search/binary.go`),
the page-resident node views (the `INodePage`/`LNodePage` lineage of
`node.go`), the metadata decoders of the persistence layer
(`persistent_disk.go` and the page-file code), the buffer pool
(`bufferpool.go`), and the B+ tree itself (the `BTree` with
`Create`/`Open`/`Close`/`Put`/`Get`), together with theorems settling
the specification claims about them.

Modelling conventions:

* Machine integers are modelled as `Nat`.  The Go code under
  verification never exercises `uint64`/`uint32`/`uint16` wrap-around in
  the embedded paths (indices stay far below 2^16; keys are compared but
  never arithmetically combined), with one documented exception: the
  uint16 underflow in `LNodePage.splitRight` on a node with fewer than 2
  keys, which in Go is an out-of-range panic; the corresponding Lean
  function is only claimed correct for ≥ 2 keys.

* Go slices of the in-use regions of node arrays are modelled as Lean
  `List`s: every slice operation in the embedded functions touches only
  indices `< numKeys` (or `≤ numKeys` during an insert), so a list of
  the in-use elements carries exactly the state the code manipulates.
  Fixed capacities (`NumLeafKeys`, `NumInternalKeys`) are derived from
  the page geometry as in the source and enforced by the same `isFull`
  guards.

* Go `for` loops and recursions are embedded as structurally recursive
  functions with an explicit fuel parameter, so that all definitions
  compute by kernel reduction; the fuel chosen at each call site is
  proven (or, in concrete evaluations, checked) to be sufficient, and
  the out-of-fuel branch returns the same value as the loop-exit branch.
-/

namespace KVStore

/-! ## Generic list helpers -/

theorem getD_mem {α : Type} {l : List α} {i : Nat} (d : α) (h : i < l.length) :
    l.getD i d ∈ l := by
  rw [List.getD_eq_getElem l d h]
  exact List.getElem_mem h

theorem sorted_getD_lt {l : List Nat} (hs : l.Pairwise (· < ·)) {i j : Nat}
    (hij : i < j) (hj : j < l.length) : l.getD i 0 < l.getD j 0 := by
  have hi : i < l.length := lt_trans hij hj
  rw [List.getD_eq_getElem l 0 hi, List.getD_eq_getElem l 0 hj]
  exact List.pairwise_iff_getElem.mp hs i j hi hj hij

/-- In a strictly sorted list the elements strictly below `key` are
exactly the prefix of length `countP (· < key)`. -/
theorem sorted_lt_iff {l : List Nat} (key : Nat) :
    l.Pairwise (· < ·) →
    ∀ i, i < l.length →
      (l.getD i 0 < key ↔ i < l.countP (fun x => decide (x < key))) := by
  induction l with
  | nil => intro _ i hi; simp at hi
  | cons a t ih =>
    intro hs i hi
    rcases List.pairwise_cons.mp hs with ⟨ha, ht⟩
    have hcc : (a :: t).countP (fun x => decide (x < key))
        = t.countP (fun x => decide (x < key)) + if a < key then 1 else 0 := by
      simp [List.countP_cons]
    by_cases hak : a < key
    · rw [hcc, if_pos hak]
      match i with
      | 0 =>
        simp only [List.getD_cons_zero]
        exact ⟨fun _ => by omega, fun _ => hak⟩
      | i + 1 =>
        have hi' : i < t.length := by simpa using hi
        have hIH := ih ht i hi'
        simp only [List.getD_cons_succ]
        exact ⟨fun h => by have := hIH.mp h; omega,
               fun h => hIH.mpr (by omega)⟩
    · have hz : t.countP (fun x => decide (x < key)) = 0 := by
        rw [List.countP_eq_zero]
        intro x hx
        simp only [decide_eq_true_eq]
        intro hxk
        exact hak (lt_trans (ha x hx) hxk)
      rw [hcc, if_neg hak, hz]
      match i with
      | 0 =>
        simp only [List.getD_cons_zero]
        exact ⟨fun h => absurd h hak, fun h => by omega⟩
      | i + 1 =>
        have hi' : i < t.length := by simpa using hi
        simp only [List.getD_cons_succ]
        constructor
        · intro hlt
          have hmem : t.getD i 0 ∈ t := getD_mem 0 hi'
          have := (List.countP_eq_zero.mp hz) _ hmem
          simp only [decide_eq_true_eq] at this
          exact absurd hlt this
        · intro h; omega

/-! ## `search/binary.go` — the exact binary search

`Binary` performs an exact binary search on a sorted slice, returning
`(index, found)`; for a missing key the index is the one of the next
greater element.  The Go loop keeps `idx`, `left`, `right` with
`right : int` (it becomes `-1` on an empty slice and when descending
past the left edge), hence `right` is an `Int` here while `left` and
`idx` stay `Nat` (in Go they never go negative).
-/

namespace search

/-- The `for left <= right` loop of `Binary` (`search/binary.go`).
`idx` is the last probed index (initially `0`); the loop returns
`(idx, false)` on exhaustion and `(m, true)` upon an exact match at
probe `m`.  The interval shrinks strictly at every iteration, so any
`fuel ≥ (right + 1 - left)` makes the out-of-fuel branch unreachable. -/
def binaryLoop (key : Nat) (values : List Nat) :
    Nat → Nat → Nat → Int → Nat × Bool
  | 0, idx, _, _ => (idx, false)
  | fuel + 1, idx, left, right =>
    if (left : Int) ≤ right then
      -- Int division, so an implicit floor operation
      let m := (left + right.toNat) / 2
      if values.getD m 0 = key then
        (m, true)
      else if key < values.getD m 0 then
        binaryLoop key values fuel m left ((m : Int) - 1)
      else -- key > values[m]
        binaryLoop key values fuel m (m + 1) right
    else
      (idx, false)

/-- `Binary` from `search/binary.go`: the loop above, followed by the
next-greater fix-up `if len(values) > 0 && values[idx] < key { idx++ }`. -/
def Binary (key : Nat) (values : List Nat) : Nat × Bool :=
  let r := binaryLoop key values (values.length + 1) 0 0 ((values.length : Int) - 1)
  if r.2 then
    r
  else if 0 < values.length ∧ values.getD r.1 0 < key then
    (r.1 + 1, false)
  else
    r

-- The concrete examples from the repository's own test table.
example : Binary 22 [1, 7, 12, 13, 22, 153] = (4, true) := by decide
example : Binary 42 [1, 7, 12, 13, 22, 153] = (5, false) := by decide
example : Binary 154 [1, 7, 12, 13, 22, 153] = (6, false) := by decide
example : Binary 0 [1, 7, 12, 13, 22, 153] = (0, false) := by decide
example : Binary 8 [1, 7, 12, 13, 22, 153] = (2, false) := by decide
example : Binary 42 ([] : List Nat) = (0, false) := by decide

/-- If the key occurs at (necessarily unique) position `k` of the
strictly sorted search interval, the loop returns `(k, true)`. -/
theorem binaryLoop_found {vs : List Nat} (hs : vs.Pairwise (· < ·)) {key k : Nat}
    (hk : k < vs.length) (hkey : vs.getD k 0 = key) :
    ∀ (fuel idx left : Nat) (right : Int),
      (right + 1 - (left : Int)).toNat ≤ fuel →
      left ≤ k → (k : Int) ≤ right → right < vs.length →
      binaryLoop key vs fuel idx left right = (k, true) := by
  intro fuel
  induction fuel with
  | zero =>
    intro idx left right hfuel hlk hkr _
    omega
  | succ fuel ih =>
    intro idx left right hfuel hlk hkr hrlen
    have hlr : (left : Int) ≤ right := le_trans (by exact_mod_cast hlk) hkr
    simp only [binaryLoop]
    rw [if_pos hlr]
    generalize hgm : (left + right.toNat) / 2 = m
    have hml : left ≤ m := by omega
    have hmr : m ≤ right.toNat := by omega
    have hmlen : m < vs.length := by omega
    by_cases heq : vs.getD m 0 = key
    · have hmk : m = k := by
        by_contra hne
        rcases Nat.lt_or_ge m k with hlt | hge
        · have := sorted_getD_lt hs hlt hk
          rw [heq, hkey] at this
          exact lt_irrefl _ this
        · have hgt : k < m := by omega
          have := sorted_getD_lt hs hgt hmlen
          rw [heq, hkey] at this
          exact lt_irrefl _ this
      rw [if_pos heq, hmk]
    · rw [if_neg heq]
      by_cases hlt : key < vs.getD m 0
      · rw [if_pos hlt]
        have hkm : k < m := by
          by_contra hge
          rcases Nat.lt_or_ge m k with hmk | hmk
          · have := sorted_getD_lt hs hmk hk
            rw [hkey] at this
            omega
          · have heqk : m = k := by omega
            rw [heqk, hkey] at hlt
            omega
        exact ih m left ((m : Int) - 1) (by omega) hlk (by omega) (by omega)
      · rw [if_neg hlt]
        have hmk : m < k := by
          by_contra hge
          have hle : k ≤ m := by omega
          rcases Nat.lt_or_ge k m with hkm | hkm
          · have := sorted_getD_lt hs hkm hmlen
            rw [hkey] at this
            omega
          · have heqk : k = m := by omega
            rw [heqk] at hkey
            exact heq hkey
        exact ih m (m + 1) right (by omega) (by omega) hkr hrlen

/-- Exit contract of the loop for an absent key: the returned index is
the count `c` of elements below the key, or `c - 1` when the probed
element is below the key (the fix-up in `Binary` then adds one). -/
def exitOK (vs : List Nat) (key c i : Nat) : Prop :=
  (i = c ∧ (vs.length = 0 ∨ ¬ vs.getD i 0 < key)) ∨ (i + 1 = c ∧ vs.getD i 0 < key)

/-- If the key is absent from the strictly sorted list, the loop exits
with `found = false` and an index satisfying `exitOK`. -/
theorem binaryLoop_notFound {vs : List Nat} (hs : vs.Pairwise (· < ·)) {key : Nat}
    (hkey : key ∉ vs) :
    ∀ (fuel idx left : Nat) (right : Int),
      (right + 1 - (left : Int)).toNat ≤ fuel →
      left ≤ vs.countP (fun x => decide (x < key)) →
      (vs.countP (fun x => decide (x < key)) : Int) ≤ right + 1 →
      right < vs.length →
      ((left : Int) > right → exitOK vs key (vs.countP (fun x => decide (x < key))) idx) →
      ∃ i, binaryLoop key vs fuel idx left right = (i, false) ∧
        exitOK vs key (vs.countP (fun x => decide (x < key))) i := by
  set c := vs.countP (fun x => decide (x < key)) with hc
  intro fuel
  induction fuel with
  | zero =>
    intro idx left right hfuel hlc hcr hrlen hexit
    have hgt : (left : Int) > right := by omega
    exact ⟨idx, by simp only [binaryLoop], hexit hgt⟩
  | succ fuel ih =>
    intro idx left right hfuel hlc hcr hrlen hexit
    by_cases hlr : (left : Int) ≤ right
    · simp only [binaryLoop]
      rw [if_pos hlr]
      generalize hgm : (left + right.toNat) / 2 = m
      have hml : left ≤ m := by omega
      have hmr : m ≤ right.toNat := by omega
      have hmlen : m < vs.length := by omega
      have hne : ¬ vs.getD m 0 = key := by
        intro heq
        exact hkey (heq ▸ getD_mem 0 hmlen)
      rw [if_neg hne]
      by_cases hlt : key < vs.getD m 0
      · rw [if_pos hlt]
        have hcm : c ≤ m := by
          by_contra hgt
          have : m < c := by omega
          have := (sorted_lt_iff key hs m hmlen).mpr this
          omega
        refine ih m left ((m : Int) - 1) (by omega) hlc (by omega) (by omega) ?_
        intro hgt
        have hlm : left = m := by omega
        have hcm' : c = m := by omega
        exact Or.inl ⟨hcm'.symm, Or.inr (by omega)⟩
      · rw [if_neg hlt]
        have hmc : m < c := by
          have hvm : vs.getD m 0 < key := by
            rcases Nat.lt_or_ge (vs.getD m 0) key with h | h
            · exact h
            · have : vs.getD m 0 = key ∨ key < vs.getD m 0 := by omega
              rcases this with h' | h'
              · exact absurd h' hne
              · exact absurd h' hlt
          exact (sorted_lt_iff key hs m hmlen).mp hvm
        refine ih m (m + 1) right (by omega) (by omega) hcr hrlen ?_
        intro hgt
        have hmr' : m = right.toNat := by omega
        have hcm : c = m + 1 := by omega
        refine Or.inr ⟨hcm.symm, ?_⟩
        rcases Nat.lt_or_ge (vs.getD m 0) key with h | h
        · exact h
        · have : vs.getD m 0 = key ∨ key < vs.getD m 0 := by omega
          rcases this with h' | h'
          · exact absurd h' hne
          · exact absurd h' hlt
    · simp only [binaryLoop]
      rw [if_neg hlr]
      exact ⟨idx, rfl, hexit (by omega)⟩

/-- Wrapper correctness, found case: `Binary` returns the position of
the key together with `true`. -/
theorem Binary_found {vs : List Nat} (hs : vs.Pairwise (· < ·)) {key k : Nat}
    (hk : k < vs.length) (hkey : vs.getD k 0 = key) :
    Binary key vs = (k, true) := by
  have hloop := binaryLoop_found hs hk hkey (vs.length + 1) 0 0 ((vs.length : Int) - 1)
    (by omega) (by omega) (by omega) (by omega)
  simp [Binary, hloop]

/-- Wrapper correctness, not-found case: `Binary` returns the number of
elements strictly below the key together with `false`. -/
theorem Binary_notFound {vs : List Nat} (hs : vs.Pairwise (· < ·)) {key : Nat}
    (hkey : key ∉ vs) :
    Binary key vs = (vs.countP (fun x => decide (x < key)), false) := by
  have hclen : vs.countP (fun x => decide (x < key)) ≤ vs.length :=
    List.countP_le_length _
  have hexit : ((0 : Nat) : Int) > (vs.length : Int) - 1 →
      exitOK vs key (vs.countP (fun x => decide (x < key))) 0 := by
    intro hgt
    have hlen : vs.length = 0 := by omega
    have hc0 : vs.countP (fun x => decide (x < key)) = 0 := by omega
    exact Or.inl ⟨hc0.symm, Or.inl hlen⟩
  rcases binaryLoop_notFound hs hkey (vs.length + 1) 0 0 ((vs.length : Int) - 1)
      (by omega) (by omega) (by omega) (by omega) hexit with ⟨i, hloop, hok⟩
  have hfix : Binary key vs
      = if 0 < vs.length ∧ vs.getD i 0 < key then (i + 1, false) else (i, false) := by
    simp [Binary, hloop]
  rcases hok with ⟨hic, hrest⟩ | ⟨hic, hvi⟩
  · rcases hrest with hlen | hnlt
    · rw [hfix, if_neg (fun h => absurd h.1 (by omega)), hic]
    · rw [hfix, if_neg (fun h => hnlt h.2), hic]
  · have hlen : 0 < vs.length := by omega
    rw [hfix, if_pos ⟨hlen, hvi⟩, hic]

end search

/-! ### Claim C6 -/

/-- **C6.**  For every strictly sorted slice `S` and target `e`:
if `e` is an element of `S`, `Binary(e, S)` returns `(index_of(e), true)`;
if `e` is not in `S`, it returns `(i, false)` with
`i = |{x ∈ S : x < e}|` and `0 ≤ i ≤ |S|`;
and on the empty slice it returns `(0, false)` for any target.
(Keys stored by the repository are strictly increasing, so "sorted" is
formalised as pairwise strictly ascending, which also makes `index_of`
unambiguous.) -/
theorem C6_binary_search_contract :
    (∀ (S : List Nat) (e : Nat), S.Pairwise (· < ·) → e ∈ S →
        search.Binary e S = (S.indexOf e, true)) ∧
    (∀ (S : List Nat) (e : Nat), S.Pairwise (· < ·) → e ∉ S →
        search.Binary e S = (S.countP (fun x => decide (x < e)), false) ∧
        S.countP (fun x => decide (x < e)) ≤ S.length) ∧
    (∀ e : Nat, search.Binary e [] = (0, false)) := by
  refine ⟨?_, ?_, ?_⟩
  · intro S e hs he
    have hk : S.indexOf e < S.length := List.indexOf_lt_length.mpr he
    have hkey : S.getD (S.indexOf e) 0 = e := by
      rw [List.getD_eq_getElem S 0 hk]
      exact List.getElem_indexOf hk
    exact search.Binary_found hs hk hkey
  · intro S e hs he
    exact ⟨search.Binary_notFound hs he, List.countP_le_length _⟩
  · intro e
    have h : search.binaryLoop e [] 1 0 0 (-1) = (0, false) := by
      simp only [search.binaryLoop]
      norm_num
    simp [search.Binary, h]

/-- Witness for C6 at the repository's own test vector. -/
theorem C6_binary_search_contract_witness :
    search.Binary 22 [1, 7, 12, 13, 22, 153] = (4, true) ∧
    search.Binary 42 [1, 7, 12, 13, 22, 153] = (5, false) := by
  constructor
  · have h := C6_binary_search_contract.1 [1, 7, 12, 13, 22, 153] 22
      (by decide) (by decide)
    rw [show ([1, 7, 12, 13, 22, 153] : List Nat).indexOf 22 = 4 from by decide] at h
    exact h
  · have h := (C6_binary_search_contract.2.1 [1, 7, 12, 13, 22, 153] 42
      (by decide) (by decide)).1
    rw [show ([1, 7, 12, 13, 22, 153] : List Nat).countP (fun x => decide (x < 42)) = 5
      from by decide] at h
    exact h

/-! ## The node views (`node.go`, `INodePage`/`LNodePage` lineage)

A node view aliases a page's bytes: the kind tag at `data[0]`, a uint16
key count, and two parallel arrays (keys/values for a leaf,
keys/children for an internal node).  Every embedded operation touches
only the in-use prefixes `keys[0:numKeys]`, `values[0:numKeys]`,
`pages[0:numKeys+1]`, which are modelled as lists; `isDirty` is the
underlying page's dirty flag, which the views set on mutation.  `id`
and `pinCount` also live on the underlying page and are carried by the
page store of the B+ tree model below, not by the views.
-/

-- Page geometry (`page.go`): 4096-byte pages with 7 bytes of in-memory
-- metadata, leaving PageDataSize bytes of node data.
def PageSize : Nat := 4096

def PageMetadataSize : Nat := 7

def PageDataSize : Nat := PageSize - PageMetadataSize

-- Node layout (`node.go`): tag byte, uint16 key count, then the arrays.
def IsLeafIndex : Nat := 0

def NumKeysIndex : Nat := 1

def KeyStartIndex : Nat := 3

/-- `NumInternalKeys = (PageDataSize - KeyStartIndex - 4) / 12` -/
def NumInternalKeys : Nat := (PageDataSize - KeyStartIndex - 4) / 12

def NumInternalPages : Nat := NumInternalKeys + 1

/-- `NumLeafKeys = (PageDataSize - KeyStartIndex) / 18` -/
def NumLeafKeys : Nat := (PageDataSize - KeyStartIndex) / 18

example : NumInternalKeys = 340 := by decide
example : NumLeafKeys = 227 := by decide

/-- A `[10]byte` value. -/
abbrev Val := List Nat

/-- The Go zero value `[10]byte{}`. -/
def zeroVal : Val := List.replicate 10 0

/-- `insertAt i a l` inserts `a` before position `i`: the effect of
`util.ShiftRight(slice, i, inUse, a)` on the in-use region of a node
array (shift `[i, inUse)` one slot right, then write `a` at `i`). -/
def insertAt {α : Type} (i : Nat) (a : α) (l : List α) : List α :=
  l.take i ++ a :: l.drop i

theorem insertAt_length {α : Type} (i : Nat) (a : α) (l : List α) (h : i ≤ l.length) :
    (insertAt i a l).length = l.length + 1 := by
  simp [insertAt]
  omega

/-- The leaf-node view (`LNodePage`). -/
structure LNodePage where
  isDirty : Bool
  keys : List Nat
  values : List Val
deriving DecidableEq

/-- The internal-node view (`INodePage`): `keys.length + 1` children in
`pages` for a coherent node. -/
structure INodePage where
  isDirty : Bool
  keys : List Nat
  pages : List Nat
deriving DecidableEq

namespace LNodePage

/-- `isFull` (`node.go`). -/
def isFull (n : LNodePage) : Bool := n.keys.length == NumLeafKeys

/-- `isEmpty` (`node.go`). -/
def isEmpty (n : LNodePage) : Bool := n.keys.length == 0

/-- `contains` (`node.go`): binary search on the in-use keys. -/
def contains (n : LNodePage) (key : Nat) : Bool := (search.Binary key n.keys).2

/-- `get` (`node.go`): binary search; on a hit return the parallel
value, otherwise the zero value and `false`. -/
def get (n : LNodePage) (key : Nat) : Val × Bool :=
  let r := search.Binary key n.keys
  if r.2 then (n.values.getD r.1 zeroVal, true) else (zeroVal, false)

/-- `insert` (`node.go`): refuse when full or already present, else
shift keys/values right at the binary-search position, install the
pair, bump the count and mark dirty.  Returns the mutated view and the
Go function's boolean result. -/
def insert (n : LNodePage) (key : Nat) (value : Val) : LNodePage × Bool :=
  if n.isFull then (n, false)
  else
    let r := search.Binary key n.keys
    if r.2 then (n, false)
    else ({ n with
            isDirty := true
            keys := insertAt r.1 key n.keys
            values := insertAt r.1 value n.values }, true)

/-- `splitRight` (`node.go`): `middle = totalKeys / 2` (floored); move
`keys/values[middle:totalKeys]` into the fresh page's view `r0`, retain
`[0:middle)`, mark both dirty, and return the last key remaining on the
left as the separator.  In Go, `left.keys[*left.numKeys-1]` panics for
`totalKeys < 2` (uint16 underflow then out-of-range); here it is the
`getD` default, and the theorems assume ≥ 2 keys. -/
def splitRight (n : LNodePage) (r0 : LNodePage) : Nat × LNodePage × LNodePage :=
  let totalKeys := n.keys.length
  let middle := totalKeys / 2
  let right : LNodePage := { r0 with
    isDirty := true
    keys := n.keys.drop middle
    values := n.values.drop middle }
  let left : LNodePage := { n with
    isDirty := true
    keys := n.keys.take middle
    values := n.values.take middle }
  let parentSeparator := left.keys.getD (middle - 1) 0
  (parentSeparator, left, right)

end LNodePage

namespace INodePage

/-- `isFull` (`node.go`). -/
def isFull (n : INodePage) : Bool := n.keys.length == NumInternalKeys

/-- `isEmpty` (`node.go`). -/
def isEmpty (n : INodePage) : Bool := n.keys.length == 0

/-- `keyRange` (`node.go`): `(keys[0], keys[max(0, numKeys-1)])`.  On an
empty node Go reads unused array slots (and `util.Max(0, numKeys-1)`
underflows to 65535, an out-of-range panic); the callers only use it on
non-empty nodes. -/
def keyRange (n : INodePage) : Nat × Nat :=
  (n.keys.getD 0 0, n.keys.getD (n.keys.length - 1) 0)

/-- `contains` (`node.go`). -/
def contains (n : INodePage) (s : Nat) : Bool := (search.Binary s n.keys).2

/-- The scan of `get` (`node.go`): first key with `key ≤ keys[i]` picks
`pages[i]`, else the last child `pages[numKeys]`.  (The Go code
special-cases `i = 0` and then loops from 1; the semantics is this
single scan.)  The `[], []` case is Go's out-of-range read on a
malformed node (fewer children than `numKeys+1`); an empty node panics
in Go before the scan. -/
def getLoop (key : Nat) : List Nat → List Nat → Nat
  | k :: ks, p :: ps => if key ≤ k then p else getLoop key ks ps
  | [], p :: _ => p
  | _, [] => 0

/-- `get` (`node.go`). -/
def get (n : INodePage) (key : Nat) : Nat := getLoop key n.keys n.pages

/-- `rightInsert` (`node.go`): refuse when full or when the separator is
already a key; else shift `keys` from `idx` and `pages` from `idx+1`
one slot right and install the separator with the new child as its
right neighbour. -/
def rightInsert (n : INodePage) (key : Nat) (id : Nat) : INodePage × Bool :=
  if n.isFull then (n, false)
  else
    let r := search.Binary key n.keys
    if r.2 then (n, false)
    else ({ n with
            isDirty := true
            keys := insertAt r.1 key n.keys
            pages := insertAt (r.1 + 1) id n.pages }, true)

/-- `splitRight` (`node.go`): `middle = (totalKeys + 1) / 2` (the Go
comment calls this integer division "ceiled", i.e. `⌈totalKeys/2⌉`).
The right view receives `keys[middle:totalKeys]` and
`pages[middle:totalKeys+1]`; the left retains `keys[0:middle-1)` and
`pages[0:middle)`; the key at `middle-1` is promoted (and its slot
zeroed via `util.Replace`) as the parent separator. -/
def splitRight (n : INodePage) (r0 : INodePage) : Nat × INodePage × INodePage :=
  let totalKeys := n.keys.length
  let middle := (totalKeys + 1) / 2
  let right : INodePage := { r0 with
    isDirty := true
    keys := n.keys.drop middle
    pages := n.pages.drop middle }
  let parentSeparator := n.keys.getD (middle - 1) 0
  let left : INodePage := { n with
    isDirty := true
    keys := n.keys.take (middle - 1)
    pages := n.pages.take middle }
  (parentSeparator, left, right)

end INodePage

/-! ### Membership/index helpers for take/drop -/

theorem mem_take_getD {l : List Nat} {t k : Nat} (h : k ∈ l.take t) :
    ∃ i, i < t ∧ i < l.length ∧ l.getD i 0 = k := by
  rcases List.mem_iff_getElem.mp h with ⟨i, hi, hgi⟩
  have hlen : i < min t l.length := by simpa using hi
  refine ⟨i, by omega, by omega, ?_⟩
  rw [List.getD_eq_getElem l 0 (by omega)]
  rw [List.getElem_take] at hgi
  exact hgi

theorem mem_drop_getD {l : List Nat} {t k : Nat} (h : k ∈ l.drop t) :
    ∃ i, t ≤ i ∧ i < l.length ∧ l.getD i 0 = k := by
  rcases List.mem_iff_getElem.mp h with ⟨i, hi, hgi⟩
  have hlen : i < l.length - t := by simpa using hi
  refine ⟨t + i, by omega, by omega, ?_⟩
  rw [List.getD_eq_getElem l 0 (by omega)]
  rw [List.getElem_drop] at hgi
  exact hgi

/-! ### Claim C4 -/

/-- A 3-key leaf used to refute the size part of claim C4. -/
def c4Leaf : LNodePage :=
  { isDirty := false, keys := [10, 20, 30], values := [[1], [2], [3]] }

/-- A fresh right-hand leaf view (a zeroed page transmuted by
`RawLNodeFrom`, hence dirty and empty). -/
def c4Fresh : LNodePage := { isDirty := true, keys := [], values := [] }

/-- **C4, counterexample.**  On a leaf with `n = 3` keys, `splitRight`
retains `⌊3/2⌋ = 1` key on the left and moves `⌈3/2⌉ = 2` keys to the
right — not `⌈n/2⌉ = 2` left and `⌊n/2⌋ = 1` right as the claim
states. -/
theorem C4_counterexample :
    c4Leaf.keys.length = 3 ∧
    (c4Leaf.splitRight c4Fresh).2.1.keys.length = 1 ∧
    (c4Leaf.splitRight c4Fresh).2.2.keys.length = 2 ∧
    ¬ ((c4Leaf.splitRight c4Fresh).2.1.keys.length = 2 ∧
       (c4Leaf.splitRight c4Fresh).2.2.keys.length = 1) := by
  decide

/-- **C4, amended.**  `splitRight` on a leaf with `n ≥ 2` keys (and
aligned values) leaves the left (retained) node with `⌊n/2⌋` keys and
gives the right (fresh) node `⌈n/2⌉ = n - ⌊n/2⌋` keys; the returned
separator equals the last key remaining on the left; the concatenation
of keys (and of values) on both sides equals the pre-split contents;
and both dirty bits (in particular the right page's) are set.  (For
`n < 2` the Go separator read `left.keys[*left.numKeys-1]` underflows
and panics, so the claim needs `n ≥ 2`; in the tree it is only invoked
on full leaves, `n = 227`.) -/
theorem C4_leaf_splitRight_amended (l r0 : LNodePage) (n : Nat)
    (hn : l.keys.length = n) (hv : l.values.length = n) (h2 : 2 ≤ n) :
    (l.splitRight r0).2.1.keys.length = n / 2 ∧
    (l.splitRight r0).2.2.keys.length = n - n / 2 ∧
    (l.splitRight r0).2.1.keys ++ (l.splitRight r0).2.2.keys = l.keys ∧
    (l.splitRight r0).2.1.values ++ (l.splitRight r0).2.2.values = l.values ∧
    (l.splitRight r0).1 =
      (l.splitRight r0).2.1.keys.getD ((l.splitRight r0).2.1.keys.length - 1) 0 ∧
    (l.splitRight r0).2.1.keys ≠ [] ∧
    (l.splitRight r0).2.2.isDirty = true ∧
    (l.splitRight r0).2.1.isDirty = true := by
  simp only [LNodePage.splitRight]
  have hlen : (l.keys.take (l.keys.length / 2)).length = n / 2 := by
    simp [hn]
    omega
  refine ⟨hlen, ?_, ?_, ?_, ?_, ?_, by trivial, by trivial⟩
  · simp [hn]
  · exact List.take_append_drop _ _
  · have : l.values.length / 2 = l.keys.length / 2 := by rw [hn, hv]
    rw [hn, ← hv]
    exact List.take_append_drop _ _
  · rw [hlen, hn]
  · rw [← List.length_pos]
    rw [hlen]
    omega

/-- A 4-key leaf instantiating the amended C4. -/
def c4wLeaf : LNodePage :=
  { isDirty := false, keys := [1, 5, 7, 9], values := [[1], [5], [7], [9]] }

/-- Witness for the amended C4 at a concrete 4-key leaf. -/
theorem C4_leaf_splitRight_amended_witness :
    (c4wLeaf.splitRight c4Fresh).2.1.keys.length = 2 ∧
    (c4wLeaf.splitRight c4Fresh).2.2.keys.length = 2 ∧
    (c4wLeaf.splitRight c4Fresh).1 = 5 := by
  have h := C4_leaf_splitRight_amended c4wLeaf c4Fresh 4 (by decide) (by decide) (by decide)
  refine ⟨h.1, ?_, ?_⟩
  · have := h.2.1
    simpa using this
  · have := h.2.2.2.2.1
    rw [h.1] at this
    simpa using this

/-! ### Claim C5 -/

/-- **C5.**  `splitRight` on an internal node with `n ≥ 2` strictly
increasing keys (and `n + 1` children) yields a left node with
`(n+1)/2 - 1` keys and a right node with `n - (n+1)/2` keys, where
`(n+1)/2` is the source's integer division (the spec writes it
`⌈(n+1)/2⌉`, glossing this division as "ceil", i.e. `⌈n/2⌉`); each side
has key-count + 1 children and the total child count `n + 1` is
preserved; and the promoted separator is strictly greater than every
key remaining on the left and strictly less than every key on the
right. -/
theorem C5_internal_splitRight (nd r0 : INodePage) (n : Nat)
    (hn : nd.keys.length = n) (hp : nd.pages.length = n + 1)
    (hs : nd.keys.Pairwise (· < ·)) (h2 : 2 ≤ n) :
    (nd.splitRight r0).2.1.keys.length = (n + 1) / 2 - 1 ∧
    (nd.splitRight r0).2.2.keys.length = n - (n + 1) / 2 ∧
    (nd.splitRight r0).2.1.pages.length = (nd.splitRight r0).2.1.keys.length + 1 ∧
    (nd.splitRight r0).2.2.pages.length = (nd.splitRight r0).2.2.keys.length + 1 ∧
    (nd.splitRight r0).2.1.pages.length + (nd.splitRight r0).2.2.pages.length = n + 1 ∧
    (∀ k ∈ (nd.splitRight r0).2.1.keys, k < (nd.splitRight r0).1) ∧
    (∀ k ∈ (nd.splitRight r0).2.2.keys, (nd.splitRight r0).1 < k) := by
  simp only [INodePage.splitRight]
  refine ⟨?_, ?_, ?_, ?_, ?_, ?_, ?_⟩
  · simp [hn]; omega
  · simp [hn]
  · simp [hn, hp]; omega
  · simp [hn, hp]; omega
  · simp [hn, hp]; omega
  · intro k hk
    rcases mem_take_getD hk with ⟨i, hit, hilen, hik⟩
    rw [← hik]
    exact sorted_getD_lt hs (by omega) (by omega)
  · intro k hk
    rcases mem_drop_getD hk with ⟨i, hit, hilen, hik⟩
    rw [← hik]
    exact sorted_getD_lt hs (by omega) hilen

/-- A 5-key internal node instantiating C5. -/
def c5Node : INodePage :=
  { isDirty := false, keys := [10, 20, 30, 40, 50],
    pages := [100, 101, 102, 103, 104, 105] }

/-- An internal-node view of a fresh zeroed page. -/
def c5Fresh : INodePage := { isDirty := false, keys := [], pages := [] }

/-- Witness for C5 at a concrete 5-key internal node:
`(5+1)/2 = 3`, so the left keeps 2 keys, the right gets 2,
the separator 30 is promoted, and 3 + 3 children are preserved. -/
theorem C5_internal_splitRight_witness :
    (c5Node.splitRight c5Fresh).2.1.keys.length = 2 ∧
    (c5Node.splitRight c5Fresh).2.2.keys.length = 2 ∧
    (c5Node.splitRight c5Fresh).2.1.pages.length +
      (c5Node.splitRight c5Fresh).2.2.pages.length = 6 := by
  have h := C5_internal_splitRight c5Node c5Fresh 5 (by decide) (by decide)
    (by decide) (by decide)
  exact ⟨h.1, h.2.1, h.2.2.2.2.1⟩

/-! ### Claim C10 — the `Raw*NodeFrom` page transmutations

These act on the raw page bytes, so they are modelled on a byte-level
page (`data` is the `PageDataSize`-byte array, `isDirty` the in-memory
flag). -/

namespace PageBytes

/-- In-memory page with its raw data area (`page.go`). -/
structure Page where
  isDirty : Bool
  data : List Nat
deriving DecidableEq

/-- `RawINodeFrom` (`node.go`), its effect on the page: a tag byte
other than 0 is corrected to 0 and the page is marked dirty. -/
def RawINodeFrom (page : Page) : Page :=
  if page.data.getD IsLeafIndex 0 ≠ 0 then
    { page with data := page.data.set IsLeafIndex 0, isDirty := true }
  else
    page

/-- `RawLNodeFrom` (`node.go`), its effect on the page: a tag byte
equal to 0 is corrected to 1 and the page is marked dirty. -/
def RawLNodeFrom (page : Page) : Page :=
  if page.data.getD IsLeafIndex 0 == 0 then
    { page with isDirty := true, data := page.data.set IsLeafIndex 1 }
  else
    page

end PageBytes

/-- A page whose tag byte is 2: neither the leaf tag (1) nor the
internal tag (0). -/
def c10Page : PageBytes.Page := { isDirty := false, data := 2 :: List.replicate 100 7 }

/-- **C10, counterexample.**  `RawLNodeFrom` on a page whose tag byte
is 2 — which does not match the requested leaf kind 1 — leaves the page
completely untouched: the tag is *not* rewritten to 1 and the dirty
flag is *not* set, contrary to the claim.  (`RawLNodeFrom` only tests
`data[0] == 0`, not `data[0] != 1`.) -/
theorem C10_counterexample :
    c10Page.data.getD IsLeafIndex 0 = 2 ∧
    PageBytes.RawLNodeFrom c10Page = c10Page ∧
    ¬ ((PageBytes.RawLNodeFrom c10Page).data.getD IsLeafIndex 0 = 1 ∧
       (PageBytes.RawLNodeFrom c10Page).isDirty = true) := by
  decide

theorem getD_set_self {l : List Nat} {i : Nat} (a : Nat) (h : i < l.length) :
    (l.set i a).getD i 0 = a := by
  simp [List.getD_eq_getElem?_getD, List.getElem?_set_self, h]

theorem getD_set_ne {l : List Nat} {i j : Nat} (a : Nat) (h : j ≠ i) :
    (l.set i a).getD j 0 = l.getD j 0 := by
  simp [List.getD_eq_getElem?_getD, List.getElem?_set_ne (Ne.symm h)]

/-- **C10, amended.**  Transmuting a page never fails.  `RawINodeFrom`
behaves as claimed: a tag byte that differs from the requested internal
tag 0 is rewritten in place to 0 (all other bytes untouched) and the
dirty flag is set, while a matching tag leaves the page untouched.
`RawLNodeFrom`, however, rewrites the tag (to 1, marking dirty) only
when the tag is exactly 0; a tag that matches the leaf kind — or any
other nonzero tag byte, which also fails to match — leaves both the
page data and the dirty flag unmodified. -/
theorem C10_transmute_amended (p : PageBytes.Page) (h : 0 < p.data.length) :
    ((p.data.getD IsLeafIndex 0 ≠ 0 →
        (PageBytes.RawINodeFrom p).data.getD IsLeafIndex 0 = 0 ∧
        (PageBytes.RawINodeFrom p).isDirty = true ∧
        ∀ i, i ≠ IsLeafIndex →
          (PageBytes.RawINodeFrom p).data.getD i 0 = p.data.getD i 0) ∧
     (p.data.getD IsLeafIndex 0 = 0 → PageBytes.RawINodeFrom p = p)) ∧
    ((p.data.getD IsLeafIndex 0 = 0 →
        (PageBytes.RawLNodeFrom p).data.getD IsLeafIndex 0 = 1 ∧
        (PageBytes.RawLNodeFrom p).isDirty = true ∧
        ∀ i, i ≠ IsLeafIndex →
          (PageBytes.RawLNodeFrom p).data.getD i 0 = p.data.getD i 0) ∧
     (p.data.getD IsLeafIndex 0 ≠ 0 → PageBytes.RawLNodeFrom p = p)) := by
  have hlt : IsLeafIndex < p.data.length := h
  constructor
  · constructor
    · intro htag
      rw [PageBytes.RawINodeFrom, if_pos htag]
      exact ⟨getD_set_self 0 hlt, rfl, fun i hi => getD_set_ne 0 hi⟩
    · intro htag
      rw [PageBytes.RawINodeFrom, if_neg (fun hne => hne htag)]
  · constructor
    · intro htag
      rw [PageBytes.RawLNodeFrom, if_pos (by simpa using htag)]
      exact ⟨getD_set_self 1 hlt, rfl, fun i hi => getD_set_ne 1 hi⟩
    · intro htag
      rw [PageBytes.RawLNodeFrom, if_neg (by simpa using htag)]

/-- Witness for the amended C10 at a concrete leaf-tagged page. -/
def c10wPage : PageBytes.Page := { isDirty := false, data := [1, 3, 4] }

theorem C10_transmute_amended_witness :
    PageBytes.RawLNodeFrom c10wPage = c10wPage ∧
    (PageBytes.RawINodeFrom c10wPage).isDirty = true := by
  have h := C10_transmute_amended c10wPage (by decide)
  exact ⟨h.2.2 (by decide), (h.1.1 (by decide)).2.1⟩

/-! ## Claim C8 — checksum-validated metadata decoding

`PersistentDisk.decodeMetaData` (`persistent_disk.go`) and
`PageFile.decodeMetaData` (the page-file code) both recompute a CRC32
over the payload and compare it with the stored trailing checksum
before touching any receiver field.  `crc32` below is the IEEE
(reflected, polynomial `0xEDB88320`) computation that Go's
`crc32.ChecksumIEEE` implements; the decoders slice the byte stream
exactly as the source does. -/

/-- One shift-and-conditional-xor round of the reflected CRC32. -/
def crc32Round (c : Nat) : Nat :=
  if c % 2 = 1 then (c / 2) ^^^ 0xEDB88320 else c / 2

/-- Fold one byte into the running CRC (8 rounds). -/
def crc32Byte (c b : Nat) : Nat := crc32Round^[8] (c ^^^ b)

/-- `crc32.ChecksumIEEE`: init `0xFFFFFFFF`, per-byte rounds, final
complement. -/
def crc32 (data : List Nat) : Nat :=
  (data.foldl crc32Byte 0xFFFFFFFF) ^^^ 0xFFFFFFFF

/-- `binary.BigEndian.Uint32` of the first four bytes. -/
def beUint32 (l : List Nat) : Nat :=
  l.getD 0 0 * 2 ^ 24 + l.getD 1 0 * 2 ^ 16 + l.getD 2 0 * 2 ^ 8 + l.getD 3 0

/-- `binary.BigEndian.Uint64` of the first eight bytes. -/
def beUint64 (l : List Nat) : Nat :=
  l.getD 0 0 * 2 ^ 56 + l.getD 1 0 * 2 ^ 48 + l.getD 2 0 * 2 ^ 40 +
    l.getD 3 0 * 2 ^ 32 + l.getD 4 0 * 2 ^ 24 + l.getD 5 0 * 2 ^ 16 +
    l.getD 6 0 * 2 ^ 8 + l.getD 7 0

/-- The in-memory fields of `PersistentDisk` that `decodeMetaData`
writes (its directory string is never touched by the decoder). -/
structure PersistentDisk where
  nextPageID : Nat
  deallocatedPageIDs : List Nat
deriving DecidableEq

/-- `PersistentDisk.decodeMetaData` (`persistent_disk.go`): split off
the trailing 4-byte checksum, recompute CRC32 over the rest, fail on
mismatch, otherwise decode next-page-ID and the free list and only then
overwrite the receiver. -/
def PersistentDisk.decodeMetaData (d : PersistentDisk) (data : List Nat) :
    PersistentDisk × Option String :=
  let checksum := beUint32 (data.drop (data.length - 4))
  let body := data.take (data.length - 4)
  let newChecksum := crc32 body
  if newChecksum ≠ checksum then
    (d, some "Checksum in file different from checksum calculated from data")
  else
    let nextPageID := beUint32 (body.take 4)
    let deallocatedPageCount := beUint64 ((body.drop 4).take 8)
    let deallocatedPageIDs := (List.range deallocatedPageCount).map
      (fun i => beUint32 ((body.drop (12 + i * 4)).take 4))
    ({ nextPageID := nextPageID, deallocatedPageIDs := deallocatedPageIDs }, none)

/-- The in-memory fields of `PageFile` that `decodeMetaData` writes
(`Path` is never touched by the decoder).  The Go `PageLocations` map
is an association list here, in decode order. -/
structure PageFile where
  Capacity : Nat
  PageCount : Nat
  PageLocations : List (Nat × Nat)
deriving DecidableEq

/-- `metaDataSize`: capacity, page count, `Capacity` map slots, CRC. -/
def PageFile.metaDataSize (pf : PageFile) : Nat :=
  4 + 4 + pf.Capacity * (4 + 4) + 4

/-- `PageFile.decodeMetaData`: reject undersized input, split off the
trailing checksum, recompute CRC32, fail on mismatch, otherwise decode
capacity, page count and the location map and only then overwrite the
receiver. -/
def PageFile.decodeMetaData (pf : PageFile) (data : List Nat) :
    PageFile × Option String :=
  if data.length < pf.metaDataSize then
    (pf, some "Meta data had invalid size")
  else
    let checksum := beUint32 (data.drop (data.length - 4))
    let body := data.take (data.length - 4)
    let newChecksum := crc32 body
    if newChecksum ≠ checksum then
      (pf, some "Checksum in file different from checksum calculated from data")
    else
      let capacity := beUint32 (body.take 4)
      let pageCount := beUint32 ((body.drop 4).take 4)
      let pageLocations := (List.range pageCount).map
        (fun i => (beUint32 ((body.drop (8 + i * 8)).take 4),
                   beUint32 ((body.drop (8 + i * 8 + 4)).take 4)))
      ({ Capacity := capacity, PageCount := pageCount,
         PageLocations := pageLocations }, none)

/-- **C8.**  When decoding persisted metadata (persistent-disk meta or
page-file meta) whose recomputed CRC32 differs from the stored
checksum, the decoder returns an error and leaves every in-memory field
of the receiver unchanged.  (The byte stream must at least cover the
checksum / the declared metadata size — shorter input panics in Go
before any checksum comparison.) -/
theorem C8_checksum_mismatch_atomic :
    (∀ (d : PersistentDisk) (data : List Nat),
        4 ≤ data.length →
        crc32 (data.take (data.length - 4)) ≠ beUint32 (data.drop (data.length - 4)) →
        (d.decodeMetaData data).1 = d ∧ (d.decodeMetaData data).2.isSome = true) ∧
    (∀ (pf : PageFile) (data : List Nat),
        pf.metaDataSize ≤ data.length →
        crc32 (data.take (data.length - 4)) ≠ beUint32 (data.drop (data.length - 4)) →
        (pf.decodeMetaData data).1 = pf ∧ (pf.decodeMetaData data).2.isSome = true) := by
  constructor
  · intro d data _ hmismatch
    rw [PersistentDisk.decodeMetaData]
    simp only [if_pos hmismatch]
    exact ⟨by trivial, by trivial⟩
  · intro pf data hsize hmismatch
    rw [PageFile.decodeMetaData]
    rw [if_neg (by omega)]
    simp only [if_pos hmismatch]
    exact ⟨by trivial, by trivial⟩

set_option maxRecDepth 8192 in
/-- Witness for C8: a 16-byte persistent-disk metadata block and a
20-byte page-file metadata block, each carrying a stored checksum of 1,
which differs from the recomputed CRC32 of their zero payloads. -/
theorem C8_checksum_mismatch_atomic_witness :
    ((PersistentDisk.mk 7 [3]).decodeMetaData
        (List.replicate 12 0 ++ [0, 0, 0, 1])).1 = PersistentDisk.mk 7 [3] ∧
    ((PageFile.mk 1 0 []).decodeMetaData
        (List.replicate 16 0 ++ [0, 0, 0, 1])).1 = PageFile.mk 1 0 [] := by
  constructor
  · exact (C8_checksum_mismatch_atomic.1 (PersistentDisk.mk 7 [3])
      (List.replicate 12 0 ++ [0, 0, 0, 1]) (by decide) (by decide)).1
  · exact (C8_checksum_mismatch_atomic.2 (PageFile.mk 1 0 [])
      (List.replicate 16 0 ++ [0, 0, 0, 1]) (by decide) (by decide)).1

/-! ## Claim C9 — `BufferPool.DeletePage` (`bufferpool.go`)

The frame table, page-ID lookup, eviction set and free-frame list are
modelled directly; the LRU timestamps of the eviction policy are
irrelevant to `DeletePage` (it only ever removes).  The Go
`var frameID FrameID` zero value, used when the page is not resident,
is the modelled `0`. -/

namespace BP

/-- In-memory page metadata (`page.go`) as far as `DeletePage` reads it. -/
structure Page where
  id : Nat
  pinCount : Nat
  isDirty : Bool
deriving DecidableEq

/-- The disk as `DeletePage` affects it: allocated IDs plus the
recycled-ID list (`PersistentDisk`). -/
structure Disk where
  pages : List Nat
  deallocated : List Nat
deriving DecidableEq

/-- `PersistentDisk.DeallocatePage`: zero and remove the page in its
page file, then push the ID onto the free list; a silent no-op when the
page is absent. -/
def Disk.DeallocatePage (d : Disk) (id : Nat) : Disk :=
  if id ∈ d.pages then
    { pages := d.pages.erase id, deallocated := d.deallocated ++ [id] }
  else
    d

/-- Assoc-list lookup standing for the Go map access
`b.pageLookup[pageID]`. -/
def lookup (l : List (Nat × Nat)) (k : Nat) : Option Nat :=
  (l.find? (fun p => p.1 == k)).map Prod.snd

/-- `delete(b.pageLookup, pageID)`. -/
def removeKey (l : List (Nat × Nat)) (k : Nat) : List (Nat × Nat) :=
  l.filter (fun p => p.1 != k)

/-- The buffer pool state (`bufferpool.go`): frame table, page-ID →
frame lookup, eviction set, free-frame list, disk. -/
structure BufferPool where
  pages : List (Option Page)
  pageLookup : List (Nat × Nat)
  evict : List Nat
  freeFrames : List Nat
  disk : Disk
deriving DecidableEq

/-- `BufferPool.DeletePage` (`bufferpool.go`): `var frameID FrameID`
starts at the zero value 0; when the page is resident the pinned and
consistency checks run and, on success, the page leaves the lookup and
the eviction set; in *every* non-error path the page is deallocated on
disk and `frameID` — possibly still the zero value — is appended to the
free-frame list. -/
def BufferPool.DeletePage (b : BufferPool) (pageID : Nat) :
    BufferPool × Option String :=
  match lookup b.pageLookup pageID with
  | some frameID =>
    match b.pages.getD frameID none with
    | some page =>
      if page.pinCount > 0 then
        (b, some "page cannot be deleted from buffer: pin count > 0")
      else if page.id ≠ pageID then
        (b, some "incostent state: page.id != pageID")
      else
        ({ b with
            pageLookup := removeKey b.pageLookup pageID
            evict := b.evict.filter (fun f => f != frameID)
            disk := b.disk.DeallocatePage pageID
            freeFrames := b.freeFrames ++ [frameID] }, none)
    | none =>
      -- a frame registered in the lookup but holding no page: Go
      -- dereferences a nil *Page and panics; ruled out by the
      -- well-formedness hypothesis of the theorem below
      (b, some "nil frame")
  | none =>
    ({ b with
        disk := b.disk.DeallocatePage pageID
        freeFrames := b.freeFrames ++ [0] }, none)

end BP

/-- **C9.**  `DeletePage(id)` returns an error only when the page is
resident with pin count > 0 or the internal consistency check
(`page.id ≠ id`) fails; in every other case it succeeds and always
appends a frame ID to the free-frame list — even when the page was not
resident, in which case the appended frame ID is the zero value 0, a
frame that was never actually freed. -/
theorem C9_delete_page (b : BP.BufferPool) (pid : Nat)
    (hwf : ∀ p ∈ b.pageLookup, (b.pages.getD p.2 none).isSome = true) :
    ((b.DeletePage pid).2.isSome = true ↔
      (∃ fid pg, BP.lookup b.pageLookup pid = some fid ∧
        b.pages.getD fid none = some pg ∧ (0 < pg.pinCount ∨ pg.id ≠ pid))) ∧
    ((b.DeletePage pid).2 = none →
      (b.DeletePage pid).1.freeFrames
        = b.freeFrames ++ [(BP.lookup b.pageLookup pid).getD 0]) ∧
    (BP.lookup b.pageLookup pid = none →
      (b.DeletePage pid).2 = none ∧
      (b.DeletePage pid).1.freeFrames = b.freeFrames ++ [0]) := by
  rcases hl : BP.lookup b.pageLookup pid with _ | fid
  · have hres : b.DeletePage pid
        = ({ b with
              disk := b.disk.DeallocatePage pid
              freeFrames := b.freeFrames ++ [0] }, none) := by
      simp only [BP.BufferPool.DeletePage, hl]
    refine ⟨?_, ?_, ?_⟩
    · rw [hres]
      constructor
      · intro h
        simp at h
      · rintro ⟨fid, pg, hl', -, -⟩
        simp at hl'
    · intro _
      simp [hres]
    · intro _
      rw [hres]
      exact ⟨rfl, rfl⟩
  · have hmem : ∃ p ∈ b.pageLookup, p.1 = pid ∧ p.2 = fid := by
      rcases hfind : b.pageLookup.find? (fun p => p.1 == pid) with _ | q
      · rw [BP.lookup, hfind] at hl
        simp at hl
      · have hq1 : q.1 = pid := by
          have := List.find?_some hfind
          simpa using this
        have hqmem := List.mem_of_find?_eq_some hfind
        rw [BP.lookup, hfind] at hl
        simp at hl
        exact ⟨q, hqmem, hq1, hl⟩
    rcases hmem with ⟨q, hqmem, hq1, hq2⟩
    have hsome := hwf q hqmem
    rw [hq2] at hsome
    rcases hpg : b.pages.getD fid none with _ | pg
    · rw [hpg] at hsome
      simp at hsome
    · by_cases hpin : pg.pinCount > 0
      · have hres : b.DeletePage pid
            = (b, some "page cannot be deleted from buffer: pin count > 0") := by
          simp only [BP.BufferPool.DeletePage, hl, hpg, if_pos hpin]
        refine ⟨?_, ?_, ?_⟩
        · rw [hres]
          simp only [Option.isSome_some, true_iff]
          exact ⟨fid, pg, rfl, hpg, Or.inl hpin⟩
        · intro h
          rw [hres] at h
          simp at h
        · intro h
          simp at h
      · by_cases hid : pg.id ≠ pid
        · have hres : b.DeletePage pid
              = (b, some "incostent state: page.id != pageID") := by
            simp only [BP.BufferPool.DeletePage, hl, hpg, if_neg hpin, if_pos hid]
          refine ⟨?_, ?_, ?_⟩
          · rw [hres]
            simp only [Option.isSome_some, true_iff]
            exact ⟨fid, pg, rfl, hpg, Or.inr hid⟩
          · intro h
            rw [hres] at h
            simp at h
          · intro h
            simp at h
        · have hres : b.DeletePage pid
              = ({ b with
                    pageLookup := BP.removeKey b.pageLookup pid
                    evict := b.evict.filter (fun f => f != fid)
                    disk := b.disk.DeallocatePage pid
                    freeFrames := b.freeFrames ++ [fid] }, none) := by
            simp only [BP.BufferPool.DeletePage, hl, hpg, if_neg hpin, if_neg hid]
          refine ⟨?_, ?_, ?_⟩
          · rw [hres]
            simp only [Option.isSome_none]
            constructor
            · intro h
              simp at h
            · rintro ⟨fid', pg', hl', hpg', hbad⟩
              have hfe : fid = fid' := by simpa using hl'
              rw [← hfe, hpg] at hpg'
              have hpe : pg = pg' := by simpa using hpg'
              rw [← hpe] at hbad
              rcases hbad with h | h
              · exact absurd h hpin
              · exact absurd h hid
          · intro _
            simp [hres]
          · intro h
            simp at h

/-- A concrete pool instantiating C9: page 5 resident unpinned in frame
0, page 9 not resident. -/
def c9Pool : BP.BufferPool :=
  { pages := [some { id := 5, pinCount := 0, isDirty := false }]
    pageLookup := [(5, 0)]
    evict := [0]
    freeFrames := [1, 2]
    disk := { pages := [5, 9], deallocated := [] } }

/-- Witness for C9: deleting resident page 5 succeeds and frees frame
0; deleting non-resident page 9 also "succeeds" and appends the
zero-value frame 0 that was never actually freed. -/
theorem C9_delete_page_witness :
    ((c9Pool.DeletePage 5).2 = none ∧
      (c9Pool.DeletePage 5).1.freeFrames = [1, 2] ++ [0]) ∧
    ((c9Pool.DeletePage 9).2 = none ∧
      (c9Pool.DeletePage 9).1.freeFrames = [1, 2] ++ [0]) := by
  have h5 := C9_delete_page c9Pool 5 (by decide)
  have h9 := C9_delete_page c9Pool 9 (by decide)
  refine ⟨⟨by decide, ?_⟩, h9.2.2 (by decide)⟩
  have hff := h5.2.1 (by decide)
  rw [hff]
  decide

/-! ## The B+ tree (`btree.go`) over its buffer pool and persistent disk

The whole store is one state `Tree.St`: the buffer pool's resident
pages (the page-ID → frame-contents composition of `pageLookup` and the
frame table; individual frame numbers are interchangeable at this
level, so only the count of free frames is kept), the eviction queue
(LRU by insertion time = FIFO order here), the persistent disk's
in-memory allocator state, the on-disk files of the working directory
(`disk.meta`, `tree.meta` and the page shards, with their
checksum-protected encodings modelled as decoded values), and the
`BTree` fields (`rootPage`/`root` as the root page ID whose view is
read from the resident table — Go keeps live pointers into the same
page —, and the `open` flag).

Pointer aliasing of node views is compiled to state passing: a Go
mutation through a view becomes computing the new node and storing it
back at the view's page ID (`setNode`); reads of `t.root` re-read the
resident root page, which is exactly what the live Go pointer sees.

`ghostSplitInternal` is a ghost marker (no source counterpart, never
read by any operation): it records whether `splitInternal` has ever
run, letting theorems restrict to executions without internal-node
splits.

The `RawLNodeFrom`/`RawINodeFrom` transmutations are applied by this
code only to freshly allocated zeroed pages (and, without effect, to
pages already of the requested kind); on a zeroed page the transmuted
view is the empty node, which is how the transmutation is modelled
here (`PageBytes.RawINodeFrom`/`RawLNodeFrom` above model the raw
byte-level effect). -/

namespace Tree

abbrev PageID := Nat

/-- A page's data area interpreted through its kind tag. -/
inductive PNode where
  | leaf (l : LNodePage)
  | inode (nd : INodePage)
deriving DecidableEq

/-- The page's dirty flag (aliased by its views). -/
def PNode.isDirty : PNode → Bool
  | .leaf l => l.isDirty
  | .inode nd => nd.isDirty

/-- Set the dirty flag (used for `page.isDirty = page.isDirty || d` and
for the pristine copy stored on disk / read from disk). -/
def PNode.setDirty (d : Bool) : PNode → PNode
  | .leaf l => .leaf { l with isDirty := d }
  | .inode nd => .inode { nd with isDirty := d }

/-- An in-memory page (`page.go`): id, pin count, and its data area
(the dirty flag lives inside `PNode`, since the node views alias it). -/
structure Page where
  id : PageID
  pinCount : Nat
  node : PNode
deriving DecidableEq

/-- A freshly allocated page: zeroed data area, whose tag byte 0 reads
as an empty internal node. -/
def zeroNode : PNode := .inode { isDirty := false, keys := [], pages := [] }

/-- The working directory (`disk.meta`, `tree.meta`, page shards).
Encodings are modelled as the decoded values; `C8` above covers the
byte-level checksum handling. -/
structure FS where
  diskMeta : Option (PageID × List PageID)
  treeMeta : Option PageID
  pages : List (PageID × PNode)
deriving DecidableEq

/-- A blank working directory. -/
def freshFS : FS := { diskMeta := none, treeMeta := none, pages := [] }

/-- The complete store state. -/
structure St where
  resident : List (PageID × Page)
  freeFrames : Nat
  evictQueue : List PageID
  nextPageID : PageID
  deallocatedPageIDs : List PageID
  fs : FS
  rootID : PageID
  opened : Bool
  ghostSplitInternal : Bool
deriving DecidableEq

/-! ### Association-list primitives (Go map accesses) -/

def alistLookup {α : Type} (l : List (PageID × α)) (k : PageID) : Option α :=
  (l.find? (fun p => p.1 == k)).map Prod.snd

def alistInsert {α : Type} (l : List (PageID × α)) (k : PageID) (v : α) :
    List (PageID × α) :=
  if (l.find? (fun p => p.1 == k)).isSome then
    l.map (fun p => if p.1 == k then (k, v) else p)
  else
    l ++ [(k, v)]

def alistRemove {α : Type} (l : List (PageID × α)) (k : PageID) :
    List (PageID × α) :=
  l.filter (fun p => p.1 != k)

/-! ### Persistent disk (`persistent_disk.go`), page files collapsed to
the page map of `FS` (their checksum/offset mechanics are covered by
C8; no IO errors are modelled, matching the error-free executions the
tree-level claims quantify over). -/

/-- `PersistentDisk.WritePage` → `PageFile.WritePage`: store the page's
data area (the 7 metadata bytes — id, pin count, dirty flag — are not
persisted). -/
def diskWritePage (s : St) (p : Page) : St :=
  { s with fs := { s.fs with pages := alistInsert s.fs.pages p.id (p.node.setDirty false) } }

/-- `PersistentDisk.ReadPage`: fail if the page is not stored; a read
page carries pin count 0 and a clear dirty flag. -/
def diskReadPage (s : St) (id : PageID) : Except String Page :=
  match alistLookup s.fs.pages id with
  | some nd => .ok { id := id, pinCount := 0, node := nd }
  | none => .error "No page with this ID in this page file"

/-- `PersistentDisk.AllocatePage`: recycle the head of the free list or
assign `nextPageID`; always write the fresh zeroed page to disk. -/
def diskAllocatePage (s : St) : Page × St :=
  match s.deallocatedPageIDs with
  | [] =>
    let p : Page := { id := s.nextPageID, pinCount := 0, node := zeroNode }
    let s := { s with nextPageID := s.nextPageID + 1 }
    (p, diskWritePage s p)
  | id :: rest =>
    let p : Page := { id := id, pinCount := 0, node := zeroNode }
    let s := { s with deallocatedPageIDs := rest }
    (p, diskWritePage s p)

/-! ### Buffer pool (`bufferpool.go`, `FrameHelper` lineage) -/

/-- `getFrame`: take a free frame, else evict the LRU victim (flushing
it when dirty) — the freed frame is immediately reused, so the free
count is unchanged on the eviction path. -/
def getFrame (s : St) : Except String Unit × St :=
  if s.freeFrames > 0 then
    (.ok (), { s with freeFrames := s.freeFrames - 1 })
  else
    match s.evictQueue with
    | [] => (.error "unable to reserve buffer frame", s)
    | victim :: rest =>
      let s := { s with evictQueue := rest }
      match alistLookup s.resident victim with
      | some page =>
        let s := if page.node.isDirty then
            diskWritePage s { page with node := page.node.setDirty false }
          else s
        (.ok (), { s with resident := alistRemove s.resident victim })
      | none => (.ok (), s)

/-- `BufferPool.NewPage`: reserve a frame, allocate on disk, install
pinned. -/
def NewPage (s : St) : Except String Page × St :=
  match getFrame s with
  | (.error e, s) => (.error e, s)
  | (.ok _, s) =>
    let (p, s) := diskAllocatePage s
    let p := { p with pinCount := 1 }
    (.ok p, { s with resident := alistInsert s.resident p.id p })

/-- `BufferPool.FetchPage`: from cache (pin + leave the eviction set)
or from disk into a reserved frame. -/
def FetchPage (s : St) (pageID : PageID) : Except String Page × St :=
  match alistLookup s.resident pageID with
  | some page =>
    let page := { page with pinCount := page.pinCount + 1 }
    (.ok page,
     { s with resident := alistInsert s.resident pageID page,
              evictQueue := s.evictQueue.filter (fun q => q != pageID) })
  | none =>
    match getFrame s with
    | (.error e, s) => (.error e, s)
    | (.ok _, s) =>
      match diskReadPage s pageID with
      | .error e => (.error e, s)
      | .ok page =>
        let page := { page with pinCount := page.pinCount + 1 }
        (.ok page, { s with resident := alistInsert s.resident pageID page })

/-- `BufferPool.UnpinPage`: saturating pin decrement, OR in the dirty
flag, and enter the eviction set at pin count 0 (set semantics: the
LRU map keys frames, so re-adding just refreshes). -/
def UnpinPage (s : St) (pageID : PageID) (isDirty : Bool) : St :=
  match alistLookup s.resident pageID with
  | some page =>
    let page := { page with pinCount := page.pinCount - 1 }
    let page := { page with
      node := page.node.setDirty (page.node.isDirty || isDirty) }
    let s := { s with resident := alistInsert s.resident pageID page }
    if page.pinCount == 0 then
      { s with evictQueue := s.evictQueue.filter (fun q => q != pageID) ++ [pageID] }
    else s
  | none => s

/-- `BufferPool.FlushPage`/`FlushFrame`: clear dirty and write through. -/
def FlushPage (s : St) (pageID : PageID) : Option String × St :=
  match alistLookup s.resident pageID with
  | some page =>
    let page := { page with node := page.node.setDirty false }
    let s := { s with resident := alistInsert s.resident pageID page }
    (none, diskWritePage s page)
  | none => (some "page not found", s)

/-- `BufferPool.FlushAllPages`: flush every resident page. -/
def FlushAllPages (s : St) : St :=
  (s.resident.map Prod.fst).foldl (fun s id => (FlushPage s id).2) s

/-- `BufferPool.Close`: flush everything, then `PersistentDisk.Close`
persists the allocator state to `disk.meta`. -/
def PoolClose (s : St) : St :=
  let s := FlushAllPages s
  { s with fs := { s.fs with diskMeta := some (s.nextPageID, s.deallocatedPageIDs) } }

/-! ### Node views over resident pages -/

/-- Store back the node mutated through a view at the given page ID
(the view writes through its pointers into the page). -/
def setNode (s : St) (id : PageID) (nd : PNode) : St :=
  match alistLookup s.resident id with
  | some p => { s with resident := alistInsert s.resident id { p with node := nd } }
  | none => s

/-- `RawLNodeFrom` on an in-memory page.  Only ever applied by the tree
to freshly zeroed pages (where the transmuted view is the empty leaf)
or to pages already tagged as leaves. -/
def RawLNodeFromP (p : Page) : Page :=
  match p.node with
  | .leaf _ => p
  | .inode _ => { p with node := .leaf { isDirty := true, keys := [], values := [] } }

/-- `RawINodeFrom` on an in-memory page; the retag branch is likewise
only reachable on zeroed pages. -/
def RawINodeFromP (p : Page) : Page :=
  match p.node with
  | .inode _ => p
  | .leaf _ => { p with node := .inode { isDirty := true, keys := [], pages := [] } }

/-- The live `t.root` view: the resident root page read as an internal
node. -/
def rootNode (s : St) : Option INodePage :=
  match alistLookup s.resident s.rootID with
  | some p =>
    match p.node with
    | .inode nd => some nd
    | .leaf _ => none
  | none => none

/-- Fuel bound for the descent loops: no trace can visit more pages
than exist in memory and on disk. -/
def fuelOf (s : St) : Nat := s.resident.length + s.fs.pages.length + 1

/-! ### `BTree` operations (`btree.go`) -/

/-- `createInitialTree`: three fresh pages — a root internal node with
one key `math.MaxUint64 / 2` routing to two empty leaves — then unpin
the leaves dirty.  The root page stays pinned for the tree's
lifetime. -/
def createInitialTree (s : St) : Option String × St :=
  match NewPage s with
  | (.error e, s) => (some e, s)
  | (.ok rootPage, s) =>
    match NewPage s with
    | (.error e, s) => (some e, s)
    | (.ok leftPage, s) =>
      let leftPage := RawLNodeFromP leftPage
      let s := setNode s leftPage.id leftPage.node
      match NewPage s with
      | (.error e, s) => (some e, s)
      | (.ok rightPage, s) =>
        let rightPage := RawLNodeFromP rightPage
        let s := setNode s rightPage.id rightPage.node
        let root : INodePage :=
          { isDirty := true, keys := [(2 ^ 64 - 1) / 2],
            pages := [leftPage.id, rightPage.id] }
        let s := setNode s rootPage.id (.inode root)
        let s := { s with rootID := rootPage.id }
        let s := UnpinPage s leftPage.id true
        let s := UnpinPage s rightPage.id true
        (none, s)

/-- `BTree.Create` (`btree.go`): build disk and buffer pool with
`memorySize / PageSize` frames over the working directory, then build
the initial tree.  A `createInitialTree` failure is *swallowed*
(`return nil // FIXME: Why do we swall the error?`) and the tree is
left closed while success is reported. -/
def Create (fs : FS) (memorySize : Nat) : Option String × St :=
  let numberOfPages := memorySize / PageSize
  -- NewPersistentDisk: load the meta file, or initialise a fresh one
  let (meta, fs) :=
    match fs.diskMeta with
    | some m => (m, fs)
    | none => ((0, []), { fs with diskMeta := some (0, []) })
  let s : St :=
    { resident := [], freeFrames := numberOfPages, evictQueue := [],
      nextPageID := meta.1, deallocatedPageIDs := meta.2, fs := fs,
      rootID := 0, opened := false, ghostSplitInternal := false }
  match createInitialTree s with
  | (some _, s) => (none, s)
  | (none, s) => (none, { s with opened := true })

/-- `loadExistingTree`: read the root page ID from `tree.meta`, fetch
the root, allocate two fresh leaf pages (which this code never unpins
nor uses — they stay pinned and leak), view the root as an internal
node and clear its dirty flag. -/
def loadExistingTree (s : St) : Option String × St :=
  match s.fs.treeMeta with
  | none => (some "IO error while opening tree meta data file", s)
  | some rootPageID =>
    match FetchPage s rootPageID with
    | (.error e, s) => (some e, s)
    | (.ok rootPage, s) =>
      match NewPage s with
      | (.error e, s) => (some e, s)
      | (.ok leftPage, s) =>
        let leftPage := RawLNodeFromP leftPage
        let s := setNode s leftPage.id leftPage.node
        match NewPage s with
        | (.error e, s) => (some e, s)
        | (.ok rightPage, s) =>
          let rightPage := RawLNodeFromP rightPage
          let s := setNode s rightPage.id rightPage.node
          let rootPage := RawINodeFromP rootPage
          let s := setNode s rootPage.id (rootPage.node.setDirty false)
          (none, { s with rootID := rootPage.id })

/-- `BTree.Open` (`btree.go`): disk and pool over the existing
directory, then `loadExistingTree`; only then the tree is open. -/
def Open (fs : FS) (memorySize : Nat) : Option String × St :=
  let numberOfPages := memorySize / PageSize
  let (meta, fs) :=
    match fs.diskMeta with
    | some m => (m, fs)
    | none => ((0, []), { fs with diskMeta := some (0, []) })
  let s : St :=
    { resident := [], freeFrames := numberOfPages, evictQueue := [],
      nextPageID := meta.1, deallocatedPageIDs := meta.2, fs := fs,
      rootID := 0, opened := false, ghostSplitInternal := false }
  match loadExistingTree s with
  | (some e, s) => (some e, s)
  | (none, s) => (none, { s with opened := true })

/-- `BTree.Close`: flush all pages and persist the allocator state via
the pool, then write the root page ID to `tree.meta`.  (Closing a
closed tree panics in Go; the `opened` flag is *not* cleared by
`Close`.) -/
def Close (s : St) : Option String × St :=
  if !s.opened then
    (some "panic: Cannot close closed tree", s)
  else
    let s := PoolClose s
    (none, { s with fs := { s.fs with treeMeta := some s.rootID } })

/-- The descent loop shared by `Get` and `traceTo`: pick the child with
`INodePage.get`, fetch it, stop at a leaf.  The accumulated trace is
kept most-recent-first (`trace.head = Go trace[len-1]`). -/
def traceToLoop (key : Nat) :
    Nat → List (PageID × INodePage) → St →
    Except String (List (PageID × INodePage) × PageID × LNodePage) × St
  | 0, _, s => (.error "descent fuel exhausted", s)
  | fuel + 1, trace, s =>
    match trace with
    | [] => (.error "empty trace", s)
    | (_, cur) :: _ =>
      let id := cur.get key
      match FetchPage s id with
      | (.error e, s) => (.error e, s)
      | (.ok page, s) =>
        match page.node with
        | .leaf l => (.ok (trace, id, l), s)
        | .inode nd => traceToLoop key fuel ((id, nd) :: trace) s

/-- `traceTo` (`btree.go`): descend from the pinned root. -/
def traceTo (s : St) (key : Nat) :
    Except String (List (PageID × INodePage) × PageID × LNodePage) × St :=
  match rootNode s with
  | none => (.error "missing root page", s)
  | some rootNd => traceToLoop key (fuelOf s) [(s.rootID, rootNd)] s

/-- `BTree.Get` (`btree.go`): descend (without recording a trace, and
without unpinning anything — `Get` leaks its pins) and look the key up
in the leaf. -/
def Get (s : St) (key : Nat) : Except String Val × St :=
  if !s.opened then
    (.error "panic: Cannot read from closed tree", s)
  else
    match traceTo s key with
    | (.error e, s) => (.error e, s)
    | (.ok (_, _, leaf), s) =>
      let r := leaf.get key
      if !r.2 then (.error "value not found", s)
      else (.ok r.1, s)

/-- `createNewRoot` (`btree.go`): a fresh internal page with the
promoted separator and the two halves as children; the old root is
unpinned clean and the tree adopts the new root (which keeps its
pin). -/
def createNewRoot (s : St) (separator : Nat) (leftID rightID : PageID) :
    Option String × St :=
  match NewPage s with
  | (.error e, s) => (some e, s)
  | (.ok newRootPage, s) =>
    let newRoot : INodePage :=
      { isDirty := true, keys := [separator], pages := [leftID, rightID] }
    let s := setNode s newRootPage.id (.inode newRoot)
    let s := UnpinPage s s.rootID false
    (none, { s with rootID := newRootPage.id })

mutual

/-- `insertToParent` (`btree.go`).  A non-full parent takes the
separator by `rightInsert` (result ignored by the source!) and the
trace is unpinned dirty (except the root).  A full parent is split
first; the separator then goes to the side chosen by the source's
condition `right.keyRange().min ≤ separator && left.numKeys ≤
right.numKeys` — see the C1 analysis.  Fuel decreases structurally on
every mutual call; any fuel ≥ 2·(trace length)+2 is sufficient. -/
def insertToParent :
    Nat → St → List (PageID × INodePage) → Nat → PageID → Option String × St
  | 0, s, _, _, _ => (some "propagation fuel exhausted", s)
  | fuel + 1, s, trace, separator, newRight =>
    match trace with
    | [] => (some "empty trace", s)
    | (parentID, parent) :: rest =>
      if !parent.isFull then
        let (parent', _) := parent.rightInsert separator newRight
        let s := setNode s parentID (.inode parent')
        let s := ((parentID, parent') :: rest).foldl
          (fun s p => if p.1 ≠ s.rootID then UnpinPage s p.1 true else s) s
        (none, s)
      else
        match splitInternal fuel s rest parentID parent with
        | (.error e, s) => (some e, s)
        | (.ok (leftID, left, rightID, right), s) =>
          if right.keyRange.1 ≤ separator ∧ left.keys.length ≤ right.keys.length then
            let (left', _) := left.rightInsert separator newRight
            let s := setNode s leftID (.inode left')
            let s := UnpinPage s leftID true
            let s := UnpinPage s rightID false
            (none, s)
          else
            let (right', _) := right.rightInsert separator newRight
            let s := setNode s rightID (.inode right')
            let s := UnpinPage s leftID false
            let s := UnpinPage s rightID true
            (none, s)

/-- `splitInternal` (`btree.go`): split the node right; if it was the
root, first promote a new root (the subsequent `insertToParent` of the
promoted separator into the new root is a silent no-op, as the new root
already contains it); otherwise propagate the promoted separator into
the remaining trace. -/
def splitInternal :
    Nat → St → List (PageID × INodePage) → PageID → INodePage →
    Except String (PageID × INodePage × PageID × INodePage) × St
  | 0, s, _, _, _ => (.error "propagation fuel exhausted", s)
  | fuel + 1, s, trace, nodeID, node =>
    let s := { s with ghostSplitInternal := true }
    match NewPage s with
    | (.error e, s) => (.error e, s)
    | (.ok rightPage, s) =>
      let rp := RawINodeFromP rightPage
      let s := setNode s rp.id rp.node
      let r0 : INodePage :=
        match rp.node with
        | .inode nd => nd
        | .leaf _ => { isDirty := true, keys := [], pages := [] }
      let (separator, left, right) := node.splitRight r0
      let s := setNode (setNode s nodeID (.inode left)) rp.id (.inode right)
      if nodeID = s.rootID then
        match createNewRoot s separator nodeID rp.id with
        | (some e, s) => (.error e, s)
        | (none, s) =>
          match rootNode s with
          | none => (.error "missing root page", s)
          | some newRoot =>
            match insertToParent fuel s [(s.rootID, newRoot)] separator rp.id with
            | (some e, s) => (.error e, s)
            | (none, s) => (.ok (nodeID, left, rp.id, right), s)
      else
        match insertToParent fuel s trace separator rp.id with
        | (some e, s) => (.error e, s)
        | (none, s) => (.ok (nodeID, left, rp.id, right), s)

end

/-- `splitLeaf` (`btree.go`): fresh right page, split, route the new
key by `key ≤ separator` (the insert result is ignored by the source),
unpin both halves dirty, then propagate the separator. -/
def splitLeaf (s : St) (trace : List (PageID × INodePage)) (leafID : PageID)
    (leaf : LNodePage) (key : Nat) (value : Val) : Option String × St :=
  match NewPage s with
  | (.error e, s) => (some e, s)
  | (.ok rightPage, s) =>
    let rp := RawLNodeFromP rightPage
    let s := setNode s rp.id rp.node
    let r0 : LNodePage :=
      match rp.node with
      | .leaf l => l
      | .inode _ => { isDirty := true, keys := [], values := [] }
    let (separator, left, right) := leaf.splitRight r0
    let s := setNode (setNode s leafID (.leaf left)) rp.id (.leaf right)
    let s :=
      if key ≤ separator then
        setNode s leafID (.leaf (left.insert key value).1)
      else
        setNode s rp.id (.leaf (right.insert key value).1)
    let newRightID := rp.id
    let s := UnpinPage s leafID true
    let s := UnpinPage s newRightID true
    insertToParent (2 * trace.length + 2) s trace separator newRightID

/-- `BTree.Put` (`btree.go`): trace to the leaf; a full leaf splits, a
non-full leaf takes the pair in place — `insert` returning `false`
surfaces the re-insert error (skipping the unpin cleanup). -/
def Put (s : St) (key : Nat) (value : Val) : Option String × St :=
  if !s.opened then
    (some "panic: Cannot write to closed tree", s)
  else
    match traceTo s key with
    | (.error e, s) => (some e, s)
    | (.ok (trace, leafID, leaf), s) =>
      if leaf.isFull then
        splitLeaf s trace leafID leaf key value
      else
        let r := leaf.insert key value
        if !r.2 then
          (some "unable to re-insert existing key", s)
        else
          let s := setNode s leafID (.leaf r.1)
          let s := trace.foldl
            (fun s p => if p.1 ≠ s.rootID then UnpinPage s p.1 false else s) s
          let s := UnpinPage s leafID true
          (none, s)

/-- Run a list of puts, collecting the results. -/
def runPuts (s : St) (ps : List (Nat × Val)) : List (Option String) × St :=
  ps.foldl (fun (acc : List (Option String) × St) kv =>
    let (r, s) := Put acc.2 kv.1 kv.2
    (acc.1 ++ [r], s)) ([], s)


instance {ε α : Type} [DecidableEq ε] [DecidableEq α] : DecidableEq (Except ε α) := by
  intro a b
  cases a with
  | error e =>
    cases b with
    | error f =>
      exact match decEq e f with
      | isTrue h => isTrue (h ▸ rfl)
      | isFalse h => isFalse (fun hc => h (Except.error.inj hc))
    | ok w => exact isFalse (fun hc => Except.noConfusion hc)
  | ok v =>
    cases b with
    | error f => exact isFalse (fun hc => Except.noConfusion hc)
    | ok w =>
      exact match decEq v w with
      | isTrue h => isTrue (h ▸ rfl)
      | isFalse h => isFalse (fun hc => h (Except.ok.inj hc))

def bugRoot : INodePage :=
  ⟨true, (List.range 340).map (fun i => (i + 1) * 1000), (List.range 341).map (fun i => i + 1)⟩

def bugLeaf (j : Nat) : LNodePage :=
  if j = 341 then
    ⟨false, (List.range 227).map (fun i => 340001 + i), (List.range 227).map (fun i => [340001 + i])⟩
  else
    ⟨false, [j * 1000], [[j * 1000]]⟩

def bugSys : St :=
  ⟨[(0, ⟨0, 1, .inode bugRoot⟩), (341, ⟨341, 0, .leaf (bugLeaf 341)⟩)],
   1000, [341], 342, [],
   ⟨some (0, []), none, (List.range 340).map (fun i => (i + 1, .leaf (bugLeaf (i + 1))))⟩,
   0, true, false⟩

def c1s1 : St := (traceTo bugSys 340228).2

set_option maxRecDepth 100000 in
theorem c1hT : traceTo bugSys 340228 = (.ok ([(0, bugRoot)], 341, bugLeaf 341), c1s1) := by
  rfl

set_option maxRecDepth 100000 in
theorem c1hPut1 : Put bugSys 340228 [7]
    = splitLeaf c1s1 [(0, bugRoot)] 341 (bugLeaf 341) 340228 [7] := by
  simp only [Put, c1hT]
  rw [if_neg (by decide : ¬((!bugSys.opened) = true)), if_pos (by decide : ((bugLeaf 341).isFull = true))]

def c1s2 : St := (NewPage c1s1).2

set_option maxRecDepth 100000 in
theorem c1hNP1 : NewPage c1s1 = (.ok ⟨342, 1, zeroNode⟩, c1s2) := by
  rfl

def c1spl := (bugLeaf 341).splitRight { isDirty := true, keys := [], values := [] }

def c1s7 : St :=
  let s := setNode c1s2 342 (.leaf { isDirty := true, keys := [], values := [] })
  let s := setNode (setNode s 341 (.leaf c1spl.2.1)) 342 (.leaf c1spl.2.2)
  let s := setNode s 342 (.leaf ((c1spl.2.2).insert 340228 [7]).1)
  let s := UnpinPage s 341 true
  UnpinPage s 342 true

set_option maxRecDepth 100000 in
theorem c1hSL : splitLeaf c1s1 [(0, bugRoot)] 341 (bugLeaf 341) 340228 [7]
    = insertToParent 4 c1s7 [(0, bugRoot)] 340113 342 := by
  have hRL : RawLNodeFromP ⟨342, 1, zeroNode⟩ = ⟨342, 1, .leaf ⟨true, [], []⟩⟩ := rfl
  simp only [splitLeaf, c1hNP1, hRL]
  rw [show (bugLeaf 341).splitRight { isDirty := true, keys := [], values := [] } = c1spl from rfl]
  rw [if_neg (by decide : ¬(340228 ≤ c1spl.1))]
  rw [show c1spl.1 = 340113 from by decide]
  rw [show 2 * [((0 : PageID), bugRoot)].length + 2 = 4 from by decide]
  simp only [c1s7]

def c1s8 : St := { c1s7 with ghostSplitInternal := true }

def c1s9 : St := (NewPage c1s8).2

set_option maxRecDepth 100000 in
theorem c1hNP2 : NewPage c1s8 = (.ok ⟨343, 1, zeroNode⟩, c1s9) := by
  rfl

def c1rspl := bugRoot.splitRight { isDirty := false, keys := [], pages := [] }

def c1s11 : St :=
  setNode (setNode (setNode c1s9 343 (.inode ⟨false, [], []⟩)) 0 (.inode c1rspl.2.1)) 343
    (.inode c1rspl.2.2)

def c1s12 : St := (NewPage c1s11).2

set_option maxRecDepth 100000 in
theorem c1hNP3 : NewPage c1s11 = (.ok ⟨344, 1, zeroNode⟩, c1s12) := by
  rfl

def c1s15 : St :=
  let s := setNode c1s12 344 (.inode ⟨true, [170000], [0, 343]⟩)
  let s := UnpinPage s s.rootID false
  { s with rootID := 344 }

set_option maxRecDepth 100000 in
theorem c1hCNR : createNewRoot c1s11 170000 0 343 = (none, c1s15) := by
  simp only [createNewRoot, c1hNP3]
  simp only [c1s15]

set_option maxRecDepth 100000 in
theorem c1hRoot : rootNode c1s15 = some ⟨true, [170000], [0, 343]⟩ := by
  decide

def c1s16 : St := setNode c1s15 344 (.inode ⟨true, [170000], [0, 343]⟩)

set_option maxRecDepth 20000 in
theorem c1hIPin : insertToParent 2 c1s15 [(344, ⟨true, [170000], [0, 343]⟩)] 170000 343
    = (none, c1s16) := by
  rfl

set_option maxRecDepth 20000 in
theorem c1hSI : splitInternal 3 c1s7 [] 0 bugRoot
    = (.ok (0, c1rspl.2.1, 343, c1rspl.2.2), c1s16) := by
  have hNP2 : NewPage { c1s7 with ghostSplitInternal := true } = (.ok ⟨343, 1, zeroNode⟩, c1s9) := c1hNP2
  have hRI : RawINodeFromP ⟨343, 1, zeroNode⟩ = ⟨343, 1, .inode ⟨false, [], []⟩⟩ := rfl
  have hRS : bugRoot.splitRight { isDirty := false, keys := [], pages := [] }
      = (170000, c1rspl.2.1, c1rspl.2.2) := by decide
  have hfold : setNode (setNode (setNode c1s9 343 (.inode ⟨false, [], []⟩)) 0 (.inode c1rspl.2.1))
      343 (.inode c1rspl.2.2) = c1s11 := rfl
  have hc : (0 = c1s11.rootID) = True := eq_true (by decide)
  have hrid : c1s15.rootID = 344 := by decide
  show splitInternal (2 + 1) c1s7 [] 0 bugRoot = _
  simp only [splitInternal, hNP2, hRI, hRS, hfold, hc, if_true, c1hCNR, c1hRoot, hrid, c1hIPin]

def c1s19 : St :=
  let s := setNode c1s16 0 (.inode (c1rspl.2.1.rightInsert 340113 342).1)
  let s := UnpinPage s 0 true
  UnpinPage s 343 false

/-- The full-parent step of `insertToParent`, abstracted over the
`splitInternal` outcome (left-insertion side). -/
theorem insertToParent_fullStep (fuel : Nat) (s : St) (parentID : PageID) (parent : INodePage)
    (rest : List (PageID × INodePage)) (sep nr : PageID)
    (hfull : (!parent.isFull) = false)
    (leftID : PageID) (left : INodePage) (rightID : PageID) (right : INodePage) (s' : St)
    (hsi : splitInternal fuel s rest parentID parent = (.ok (leftID, left, rightID, right), s'))
    (hchoice : (right.keyRange.1 ≤ sep ∧ left.keys.length ≤ right.keys.length) = True) :
    insertToParent (fuel + 1) s ((parentID, parent) :: rest) sep nr
      = (none, UnpinPage (UnpinPage (setNode s' leftID (.inode (left.rightInsert sep nr).1))
          leftID true) rightID false) := by
  simp only [insertToParent, hfull, Bool.false_eq_true, if_false, hsi, hchoice, if_true]

set_option maxRecDepth 20000 in
theorem c1hIP : insertToParent 4 c1s7 [(0, bugRoot)] 340113 342 = (none, c1s19) := by
  refine (insertToParent_fullStep 3 c1s7 0 bugRoot [] 340113 342 (by decide)
    0 c1rspl.2.1 343 c1rspl.2.2 c1s16 c1hSI (eq_true (by decide))).trans ?_
  rfl

set_option maxRecDepth 20000 in
theorem c1hPutFull : Put bugSys 340228 [7] = (none, c1s19) := by
  rw [c1hPut1, c1hSL, c1hIP]

set_option maxRecDepth 20000 in
theorem c1hGetNew : (Get c1s19 340228).1 = .error "value not found" := by
  decide

set_option maxRecDepth 20000 in
theorem c1hGetOld : (Get c1s19 340220).1 = .error "value not found" := by
  decide

set_option maxRecDepth 20000 in
theorem c1hGetCtl : (Get c1s19 1000).1 = .ok [1000] := by
  decide

set_option maxRecDepth 20000 in
/-- C1: at the transcribed full-root state, a `Put` of a fresh key
reports success, yet the key cannot be read back; a previously stored
key is lost as well, while other keys remain readable. -/
theorem C1_put_get_divergence :
    (Put bugSys 340228 [7]).1 = none ∧
    (Get (Put bugSys 340228 [7]).2 340228).1 = .error "value not found" ∧
    (Get (Put bugSys 340228 [7]).2 340220).1 = .error "value not found" ∧
    (Get (Put bugSys 340228 [7]).2 1000).1 = .ok [1000] := by
  rw [c1hPutFull]
  exact ⟨rfl, c1hGetNew, c1hGetOld, c1hGetCtl⟩

def c3closed : St := (Close c1s19).2

set_option maxRecDepth 100000 in
theorem c3hClose : (Close c1s19).1 = none := by decide

def c3re : St := (Open c3closed.fs 4096000).2

set_option maxRecDepth 100000 in
theorem c3hOpen : (Open c3closed.fs 4096000).1 = none := by decide

set_option maxRecDepth 100000 in
theorem c3hGetNew : (Get c3re 340228).1 = .error "value not found" := by decide

set_option maxRecDepth 100000 in
theorem c3hGetOld : (Get c3re 340220).1 = .error "value not found" := by decide

set_option maxRecDepth 100000 in
theorem c3hGetCtl : (Get c3re 1000).1 = .ok [1000] := by decide

set_option maxRecDepth 100000 in
/-- C3: the clean close/reopen round trip preserves the tree faithfully,
but the entry acknowledged by the pre-close `Put` is already unreachable
(and a previously stored key was lost with it), so it does not survive
shutdown and reopen either; an unaffected key remains readable. -/
theorem C3_durability_divergence :
    (Put bugSys 340228 [7]).1 = none ∧
    (Close (Put bugSys 340228 [7]).2).1 = none ∧
    (Open (Close (Put bugSys 340228 [7]).2).2.fs 4096000).1 = none ∧
    (Get (Open (Close (Put bugSys 340228 [7]).2).2.fs 4096000).2 340228).1
      = .error "value not found" ∧
    (Get (Open (Close (Put bugSys 340228 [7]).2).2.fs 4096000).2 340220).1
      = .error "value not found" ∧
    (Get (Open (Close (Put bugSys 340228 [7]).2).2.fs 4096000).2 1000).1 = .ok [1000] := by
  rw [c1hPutFull]
  exact ⟨rfl, c3hClose, c3hOpen, c3hGetNew, c3hGetOld, c3hGetCtl⟩

def sC2 : St :=
  ⟨[(0, ⟨0, 1, .inode ⟨true, [(2 ^ 64 - 1) / 2], [1, 2]⟩⟩),
    (1, ⟨1, 0, .leaf ⟨true, (List.range 227).map (fun i => i + 1),
      (List.range 227).map (fun i => [i + 1])⟩⟩),
    (2, ⟨2, 0, .leaf ⟨true, [], []⟩⟩)],
   297, [2, 1], 3, [],
   ⟨some (0, []), none, [(0, zeroNode), (1, zeroNode), (2, zeroNode)]⟩,
   0, true, false⟩

def c2a : St := (Put sC2 1 [99]).2

set_option maxRecDepth 100000 in
theorem c2hPut1 : Put sC2 1 [99] = (none, c2a) := by
  have h : (Put sC2 1 [99]).1 = none := by decide
  calc Put sC2 1 [99] = ((Put sC2 1 [99]).1, (Put sC2 1 [99]).2) := rfl
    _ = (none, c2a) := by rw [h]; rfl

set_option maxRecDepth 100000 in
theorem c2hGet1 : (Get c2a 1).1 = .ok [1] := by decide

def c2b : St := (Put c2a 1 [99]).2

set_option maxRecDepth 100000 in
theorem c2hPut2 : Put c2a 1 [99] = (some "unable to re-insert existing key", c2b) := by
  have h : (Put c2a 1 [99]).1 = some "unable to re-insert existing key" := by decide
  calc Put c2a 1 [99] = ((Put c2a 1 [99]).1, (Put c2a 1 [99]).2) := rfl
    _ = (some "unable to re-insert existing key", c2b) := by rw [h]; rfl

set_option maxRecDepth 100000 in
theorem c2hGet2 : (Get c2b 1).1 = .ok [1] := by decide

set_option maxRecDepth 100000 in
/-- C2: a duplicate `Put` on a key living in a *full* leaf silently
reports success instead of the re-insert conflict (the leaf is split and
the failing `insert` result is dropped); the stored value survives, and
once the leaf is no longer full the same duplicate `Put` does surface
the conflict error. -/
theorem C2_duplicate_put_divergence :
    (Put sC2 1 [99]).1 = none ∧
    (Get (Put sC2 1 [99]).2 1).1 = .ok [1] ∧
    (Put (Put sC2 1 [99]).2 1 [99]).1 = some "unable to re-insert existing key" ∧
    (Get (Put (Put sC2 1 [99]).2 1 [99]).2 1).1 = .ok [1] := by
  rw [c2hPut1]
  refine ⟨rfl, c2hGet1, ?_, ?_⟩
  · rw [show (none, c2a).2 = c2a from rfl, c2hPut2]
  · rw [show (none, c2a).2 = c2a from rfl, c2hPut2]
    exact c2hGet2

set_option maxRecDepth 20000 in
/-- C7: `Create` with a zero memory budget cannot build the initial
tree (no buffer frame can be reserved), yet it reports success; the
store it returns is closed, and every subsequent operation fails. -/
theorem C7_create_swallows_failure :
    (Create freshFS 0).1 = none ∧
    (Create freshFS 0).2.opened = false ∧
    (Put (Create freshFS 0).2 1 [1]).1 = some "panic: Cannot write to closed tree" ∧
    (Get (Create freshFS 0).2 1).1 = .error "panic: Cannot read from closed tree" := by
  refine ⟨by decide, by decide, by decide, by decide⟩

end Tree
end KVStore
